import Mathlib

/-!
Verification development for the music2db-client incremental scan-and-sync
engine (src/music2db_client/main.py and src/music2db_client/batch_processor.py).

The Python code is shallowly embedded as executable Lean definitions:

* A directory tree is a list of `FsEntry` values (the children of the scan
  root).  Paths are lists of name components, relative to the scan root.
* `rglobStar` models `pathlib.Path.rglob("*")`: for every directory in a
  depth-first preorder (the root first, then each non-symlink subdirectory
  recursively, in listing order) it yields that directory's children.
  `pathlib`'s recursive wildcard does not descend into symlinked
  directories, and that is reflected here.
* Timestamps are modelled as `Int` (the Python floats are only compared
  and maxed, never used arithmetically, so any linear order is faithful).
* Python exceptions are modelled with `Except String`: a function that the
  source wraps in `try/except` is split into a `...Body` definition that can
  return `.error` and a total wrapper performing the catch.
* The outside world (HTTP responses, file metadata as extracted by mutagen,
  stat results, the persisted checkpoint, the cancellation flag) is supplied
  as data in a `ScanEnv`; the scan returns the ordered trace of observable
  events (HTTP calls, checkpoint read/write) plus the persisted checkpoint
  value after the scan.
-/

/-- A file-system entry.  `file name sym mtime statErr meta`:
`sym` marks a symlink, `statErr` marks an entry whose `stat()` raises an
error that `pathlib` does not swallow (e.g. a permission error), and `meta`
is the result of `extract_metadata` on the file: `none` when extraction
raises, `some []` when it returns the empty mapping, `some kvs` otherwise.
`dir name sym children`: a directory; for a symlinked directory the
children are the target's content, which the traversal never enters. -/
inductive FsEntry where
  | file (name : String) (sym : Bool) (mtime : Int) (statErr : Bool)
      (meta : Option (List (String × String)))
  | dir (name : String) (sym : Bool) (children : List FsEntry)

/-- The entry's own name (final path component). -/
def FsEntry.name : FsEntry → String
  | .file n _ _ _ _ => n
  | .dir n _ _ => n

/-- `Path.is_symlink()` on the entry. -/
def FsEntry.isSymlink : FsEntry → Bool
  | .file _ s _ _ _ => s
  | .dir _ s _ => s

/-- A non-symlink regular file (`is_file() and not is_symlink()`). -/
def FsEntry.isRegularFile : FsEntry → Bool
  | .file _ s _ _ _ => !s
  | .dir _ _ _ => false

/-- A directory entry (symlinked or not). -/
def FsEntry.isDir : FsEntry → Bool
  | .file _ _ _ _ _ => false
  | .dir _ _ _ => true

/-- `extract_metadata` result for the entry.  Opening a directory raises
(`IsADirectoryError`), hence `none` for directories. -/
def FsEntry.metaOf : FsEntry → Option (List (String × String))
  | .file _ _ _ _ m => m
  | .dir _ _ _ => none

/-- The pairs `(prefix ++ [child.name], child)` for the children of one
directory, as yielded by the final `*` of the glob pattern. -/
def childPairs (pre : List String) (es : List FsEntry) : List (List String × FsEntry) :=
  es.map (fun e => (pre ++ [e.name], e))

mutual

/-- Listing contributed by the strict descendants of one entry during
`rglob("*")`: nothing for files, nothing beneath a symlinked directory,
and for a real directory its children followed by the recursive listing. -/
def entrySub (pre : List String) : FsEntry → List (List String × FsEntry)
  | .file _ _ _ _ _ => []
  | .dir _ true _ => []
  | .dir n false cs => childPairs (pre ++ [n]) cs ++ subListing (pre ++ [n]) cs

/-- Listing contributed by the strict descendants of a forest of entries. -/
def subListing (pre : List String) : List FsEntry → List (List String × FsEntry)
  | [] => []
  | e :: es => entrySub pre e ++ subListing pre es

end

/-- `music_path.rglob("*")`: every entry reachable from the root without
passing through a symlinked directory, each paired with its path relative
to the root; the order is the one produced by `pathlib` (all children of a
directory, then the listings of its subdirectories, depth first). -/
def rglobStar (t : List FsEntry) : List (List String × FsEntry) :=
  childPairs [] t ++ subListing [] t

/-- `music_path.rglob(".ignore")` followed by `path.parent`: the set of
directory paths that contain an entry named `.ignore` (the scan's first
pass, `ignored_dirs`). -/
def ignoredDirs (t : List FsEntry) : List (List String) :=
  (rglobStar t).filterMap
    (fun pe => if pe.2.name = ".ignore" then some pe.1.dropLast else none)

/-- All strict prefixes of a path: `file_path.parents` restricted to the
scan root and below (`ignored_dirs` only ever contains such paths, so the
ancestors above the root that Python also enumerates can never match). -/
def properPrefixes : List String → List (List String)
  | [] => []
  | x :: xs => [] :: (properPrefixes xs).map (fun q => x :: q)

/-- Index of the last `.` in a list of characters, if any. -/
def rfindDot : List Char → Option Nat
  | [] => none
  | c :: cs =>
    match rfindDot cs with
    | some i => some (i + 1)
    | none => if c = '.' then some 0 else none

/-- `PurePath.suffix`: the final extension of a name, dot included; empty
when the name has no dot, starts with its only dot, or ends with a dot. -/
def pySuffix (name : String) : String :=
  let cs := name.toList
  match rfindDot cs with
  | none => ""
  | some i => if 0 < i ∧ i < cs.length - 1 then String.mk (cs.drop i) else ""

/-- `str.lower()`, character by character (the extensions in play are
ASCII, where Python's and Lean's per-character lowercasing agree). -/
def strLower (s : String) : String :=
  String.mk (s.toList.map Char.toLower)

/-- The extension filter exactly as written in the source:
`file_path.suffix.lower() in extensions`.  Only the file's suffix is
lowercased; the configured extensions are compared verbatim. -/
def extMatch (exts : List String) (name : String) : Bool :=
  exts.contains (strLower (pySuffix name))

/-- Outcome of one HTTP request as seen by the client: either the call
raises at the network level (`requests` exception, timeout included), or a
response arrives with a status code and a body; `none` for the body means
`response.json()` raises because the body is not valid JSON, `some obj`
gives the decoded JSON object as a flat key/value list.  A body that
decodes to JSON that is *not* an object (array, string, number, null) is
not representable here; the refined model `HttpRespFull` below covers it
— on such a body `data.get` in `check_server_health` raises — and
`check_server_health_full_agrees` shows the two models coincide on every
response this narrow type can express. -/
inductive HttpResp where
  | exn
  | resp (status : Nat) (body : Option (List (String × String)))

/-- The body of `check_server_health` inside its `try`, over the narrow
body model: what the code does before any exception handling, `.error`
standing for a raised exception.  With the `requests` library,
`response.json()` on an undecodable body raises
`requests.exceptions.JSONDecodeError`, a `RequestException`.  See
`checkServerHealthFullBody` for the refined model that also carries the
`AttributeError` path on decodable non-object bodies. -/
def checkServerHealthBody (r : HttpResp) : Except String Bool :=
  match r with
  | .exn => .error "RequestException"
  | .resp status body =>
    if status = 200 then
      match body with
      | none => .error "JSONDecodeError"
      | some data =>
        if data.lookup "status" = some "Server is running" then .ok true
        else .ok false
    else .ok false

/-- `check_server_health` over the narrow body model: the `try` body with
`except requests.exceptions.RequestException` logging and returning
`False`.  Every exception the body can raise *in this model* is a
`RequestException`; the refined `check_server_health_full` below also
covers the bodies on which that is not so. -/
def check_server_health (r : HttpResp) : Bool :=
  match checkServerHealthBody r with
  | .ok b => b
  | .error _ => false

/-- The decoded body of an HTTP response, refining the `Option` model of
`HttpResp`: `response.json()` can raise, produce a JSON object (a flat
key/value list here), or produce decodable JSON that is not an object —
an array, a string, a number, or null. -/
inductive JsonBody where
  | undecodable
  | obj (fields : List (String × String))
  | nonObj
deriving DecidableEq

/-- An HTTP response with the refined body model. -/
inductive HttpRespFull where
  | exn
  | resp (status : Nat) (body : JsonBody)
deriving DecidableEq

/-- The exception classes `check_server_health` can meet: network errors,
timeouts and `requests`' `JSONDecodeError` are `RequestException`s, which
its handler catches; `data.get("status")` on a value that is not a dict
raises `AttributeError`, which its handler does not catch. -/
inductive HealthErr where
  | requestException
  | attributeError
deriving DecidableEq

/-- The body of `check_server_health` inside its `try`, over the refined
response model: a 200 response is decoded, and `data.get("status")` is
compared against the running marker — raising `AttributeError` when the
decoded value is not an object. -/
def checkServerHealthFullBody (r : HttpRespFull) : Except HealthErr Bool :=
  match r with
  | .exn => .error .requestException
  | .resp status body =>
    if status = 200 then
      match body with
      | .undecodable => .error .requestException
      | .nonObj => .error .attributeError
      | .obj data =>
        if data.lookup "status" = some "Server is running" then .ok true
        else .ok false
    else .ok false

/-- `check_server_health` over the refined model: the
`except requests.exceptions.RequestException` handler turns exactly that
class into `False`; an `AttributeError` escapes the function (and the
scan, which has no handler around the call). -/
def check_server_health_full (r : HttpRespFull) : Except String Bool :=
  match checkServerHealthFullBody r with
  | .ok b => .ok b
  | .error .requestException => .ok false
  | .error .attributeError => .error "AttributeError"

/-- The narrow response model embeds into the refined one: an absent body
is an undecodable one, a present body is an object. -/
def HttpResp.toFull : HttpResp → HttpRespFull
  | .exn => .exn
  | .resp s none => .resp s .undecodable
  | .resp s (some data) => .resp s (.obj data)

/-- The body of `_send_batch` inside its `try`: POST the batch, on a 200
decode the JSON body and read `result["message"]` (a missing key raises
`KeyError`), on any other status log and fall through. -/
def sendBatchBody (r : HttpResp) : Except String Unit :=
  match r with
  | .exn => .error "requests.post raised"
  | .resp status body =>
    if status = 200 then
      match body with
      | none => .error "response.json raised"
      | some obj =>
        match obj.lookup "message" with
        | some _ => .ok ()
        | none => .error "KeyError message"
    else .ok ()

/-- `_send_batch`: the `try` body wrapped in `except Exception`, which logs
and returns; the function never lets an exception escape. -/
def sendBatch (r : HttpResp) : Except String Unit :=
  match sendBatchBody r with
  | .ok u => .ok u
  | .error _ => .ok ()

/-- Does this entry abort the modification-time loop?  `entry.stat()`
raising (for an error `pathlib` does not swallow) inside
`_get_latest_modification`'s single `try` terminates the whole `for`. -/
def statAborts : FsEntry → Bool
  | .file _ false _ true _ => true
  | _ => false

/-- The modification time the loop accumulates for this entry: only
non-symlink regular files whose `stat()` succeeds contribute. -/
def okFileMtime : FsEntry → Option Int
  | .file _ false mt false _ => some mt
  | _ => none

/-- The `for entry in directory.rglob("*")` loop of
`_get_latest_modification`.  The `try` wraps the whole loop, so the first
entry whose `stat()` raises ends the iteration with the maximum seen so
far; symlinks and directories are filtered by
`entry.is_file() and not entry.is_symlink()`. -/
def latestModLoop (latest : Int) : List (List String × FsEntry) → Int
  | [] => latest
  | pe :: rest =>
    if statAborts pe.2 then latest
    else
      match okFileMtime pe.2 with
      | some mt => latestModLoop (max latest mt) rest
      | none => latestModLoop latest rest

/-- `_get_latest_modification`: start from the root directory's own
modification time and fold the loop over the traversal. -/
def _get_latest_modification (rootMtime : Int) (t : List FsEntry) : Int :=
  latestModLoop rootMtime (rglobStar t)

/-- Modelled from the claim wording, for comparison with the code: the
maximum of the root's own modification time and the modification times of
all non-symlink files in the traversal, excluding only the entries whose
`stat()` fails. -/
def latestModClaim (rootMtime : Int) (t : List FsEntry) : Int :=
  ((rglobStar t).filterMap (fun pe => okFileMtime pe.2)).foldl max rootMtime

/-- Modelled from the claim wording of C8, for comparison with the code:
case-insensitive membership of the file's extension in the configured set,
regardless of the case used in the configured set. -/
def extMatchClaim (exts : List String) (name : String) : Bool :=
  exts.any (fun ext => strLower ext = strLower (pySuffix name))

/-- A track record as sent to the server: the path relative to the scan
root (as components) and the extracted metadata mapping. -/
structure Track where
  file_path : List String
  metadata : List (String × String)
deriving DecidableEq, Repr

/-- An observable step of one scan invocation, in order: the health GET,
the checkpoint read (`_get_last_scan_time`), the change-detection pass over
the tree (`_get_latest_modification`), a batch POST, a single-track POST
(never emitted by the batch scan path), the checkpoint write
(`_save_last_scan_time`). -/
inductive ScanEvent where
  | healthGet
  | readState
  | statTree
  | batchPost (tracks : List Track)
  | singlePost (track : Track)
  | writeState (t : Int)
deriving DecidableEq, Repr

/-- Mutable state of the scan loop: the accumulator `tracks`, the events
emitted so far, and the number of batches already POSTed (used to index
the environment's response sequence). -/
structure WalkState where
  tracks : List Track
  events : List ScanEvent
  sent : Nat
deriving Repr

/-- The per-scan constants: configured extensions, the ignore set from the
first pass, the batch size, and the server's response to each batch POST. -/
structure ScanCtx where
  extensions : List String
  ignored : List (List String)
  batchSize : Nat
  batchResp : Nat → HttpResp

/-- The inner `try` body around metadata extraction and batching: extract
(`.error` when `extract_metadata` raises), skip an empty mapping, append
the record, and flush when the accumulator reaches the batch size. -/
def processTrackBody (batchSize : Nat) (batchResp : Nat → HttpResp)
    (p : List String) (meta : Option (List (String × String)))
    (st : WalkState) : Except String WalkState :=
  match meta with
  | none => .error "extract_metadata raised"
  | some m =>
    if m.isEmpty then .ok st
    else
      let tracks := st.tracks ++ [⟨p, m⟩]
      if batchSize ≤ tracks.length then
        match sendBatch (batchResp st.sent) with
        | .error e => .error e
        | .ok _ => .ok ⟨[], st.events ++ [.batchPost tracks], st.sent + 1⟩
      else .ok ⟨tracks, st.events, st.sent⟩

/-- The inner `try` with its `except Exception`: an error is logged and the
file skipped, leaving the state unchanged. -/
def processTrack (batchSize : Nat) (batchResp : Nat → HttpResp)
    (p : List String) (meta : Option (List (String × String)))
    (st : WalkState) : WalkState :=
  match processTrackBody batchSize batchResp p meta st with
  | .ok st' => st'
  | .error _ => st

/-- One iteration of the scan loop on a traversal element: skip symlinks,
skip entries with an ignored ancestor, apply the extension filter, then
process the candidate.  (The outer `try` of the loop catches errors from
these checks as well; in the model the checks are data and cannot raise.) -/
def processEntry (ctx : ScanCtx) (pe : List String × FsEntry)
    (st : WalkState) : WalkState :=
  if pe.2.isSymlink then st
  else if (properPrefixes pe.1).any (fun q => ctx.ignored.contains q) then st
  else if extMatch ctx.extensions pe.2.name then
    processTrack ctx.batchSize ctx.batchResp pe.1 pe.2.metaOf st
  else st

/-- `killer.kill_now` at the i-th loop check, for a cancellation signal
that arrives just before check `k` (and stays raised, the flag being
monotone): `none` means no signal during this scan. -/
def killNow (killAt : Option Nat) (i : Nat) : Bool :=
  match killAt with
  | none => false
  | some k => k ≤ i

/-- Result of the scan loop: terminated by the cancellation check
(`return` inside the loop) or ran off the end of the traversal. -/
inductive WalkOut where
  | killed (st : WalkState)
  | done (st : WalkState)
deriving Repr

/-- The state carried by either outcome. -/
def WalkOut.state : WalkOut → WalkState
  | .killed st => st
  | .done st => st

/-- The scan's `for file_path in music_path.rglob("*")` loop:
`killer.kill_now` is polled at the top of every iteration, then the
element is processed. -/
def walkLoop (ctx : ScanCtx) (killAt : Option Nat) :
    Nat → WalkState → List (List String × FsEntry) → WalkOut
  | _, st, [] => .done st
  | i, st, pe :: rest =>
    if killNow killAt i then .killed st
    else walkLoop ctx killAt (i + 1) (processEntry ctx pe st) rest

/-- The world one invocation of `scan_music_directory` runs against: the
health-check response, whether `cfg.music.path` exists, the persisted
checkpoint (`0` when the state file is missing or unreadable), the root
directory's own mtime, the tree under it, the configured extensions, the
cancellation arrival point, the responses to batch POSTs, and the value of
`time.time()` at checkpoint-save time. -/
structure ScanEnv where
  health : HttpResp
  pathExists : Bool
  lastScanTime : Int
  rootMtime : Int
  tree : List FsEntry
  extensions : List String
  killAt : Option Nat
  batchResp : Nat → HttpResp
  now : Int

/-- `scan_music_directory`: health check, existence check, change
detection, first pass for `.ignore` markers, the walk, the remainder
flush, and the checkpoint save.  Returns the ordered event trace and the
persisted checkpoint value after the invocation; `.error` would be an
exception escaping the function. -/
def scan_music_directory (env : ScanEnv) : Except String (List ScanEvent × Int) :=
  if check_server_health env.health = false then
    .ok ([.healthGet], env.lastScanTime)
  else if env.pathExists = false then
    .ok ([.healthGet], env.lastScanTime)
  else
    let last := env.lastScanTime
    let latest := _get_latest_modification env.rootMtime env.tree
    if latest ≤ last then
      .ok ([.healthGet, .readState, .statTree], last)
    else
      let ctx : ScanCtx := ⟨env.extensions, ignoredDirs env.tree, 100, env.batchResp⟩
      match walkLoop ctx env.killAt 0 ⟨[], [], 0⟩ (rglobStar env.tree) with
      | .killed st =>
        .ok ([.healthGet, .readState, .statTree] ++ st.events, last)
      | .done st =>
        if st.tracks.isEmpty then
          .ok ([.healthGet, .readState, .statTree] ++ st.events
                ++ [.writeState env.now], env.now)
        else
          match sendBatch (env.batchResp st.sent) with
          | .error e => .error e
          | .ok _ =>
            .ok ([.healthGet, .readState, .statTree] ++ st.events
                  ++ [.batchPost st.tracks, .writeState env.now], env.now)

/-- `batch_processor.process_directory`: existence check, one eager filter
pass collecting non-symlink entries matching the extension filter, then
the same extract-accumulate-flush loop (no ignore markers, no cancellation
polling), and the remainder flush. -/
def process_directory (exts : List String) (batchSize : Nat)
    (dirExists : Bool) (tree : List FsEntry)
    (batchResp : Nat → HttpResp) : Except String (List ScanEvent) :=
  if dirExists = false then .ok []
  else
    let musicFiles := (rglobStar tree).filter
      (fun pe => extMatch exts pe.2.name && !pe.2.isSymlink)
    if musicFiles.isEmpty then .ok []
    else
      let st := musicFiles.foldl
        (fun st pe => processTrack batchSize batchResp pe.1 pe.2.metaOf st)
        ⟨[], [], 0⟩
      if st.tracks.isEmpty then .ok st.events
      else
        match sendBatch (batchResp st.sent) with
        | .error e => .error e
        | .ok _ => .ok (st.events ++ [.batchPost st.tracks])

/-- The scan loop with the cancellation checks erased: a plain fold of
`processEntry` over (a prefix of) the traversal. -/
def walkAll (ctx : ScanCtx) (st : WalkState)
    (l : List (List String × FsEntry)) : WalkState :=
  l.foldl (fun s pe => processEntry ctx pe s) st

theorem rglobStar_nil : rglobStar [] = [] := rfl

theorem sendBatch_eq_ok (r : HttpResp) : sendBatch r = .ok () := by
  cases r with
  | exn => rfl
  | resp status body =>
    simp only [sendBatch, sendBatchBody]
    by_cases h : status = 200
    · cases body with
      | none => simp [h]
      | some obj =>
        simp only [h, if_pos rfl]
        cases obj.lookup "message" <;> rfl
    · simp [h]

theorem processTrack_between (batchSize : Nat) (batchResp : Nat → HttpResp)
    (p : List String) (meta : Option (List (String × String))) (st : WalkState) :
    ∃ new, (processTrack batchSize batchResp p meta st).events = st.events ++ new ∧
      ∀ ev ∈ new, ∃ ts, ev = ScanEvent.batchPost ts := by
  unfold processTrack processTrackBody
  cases meta with
  | none => exact ⟨[], by simp, by simp⟩
  | some m =>
    by_cases hm : m.isEmpty
    · exact ⟨[], by simp [hm], by simp⟩
    · by_cases hlen : batchSize ≤ st.tracks.length + 1
      · refine ⟨[.batchPost (st.tracks ++ [Track.mk p m])], ?_, by simp⟩
        simp [hm, hlen, sendBatch_eq_ok]
      · refine ⟨[], ?_, by simp⟩
        simp [hm, hlen]

theorem processEntry_between (ctx : ScanCtx) (pe : List String × FsEntry)
    (st : WalkState) :
    ∃ new, (processEntry ctx pe st).events = st.events ++ new ∧
      ∀ ev ∈ new, ∃ ts, ev = ScanEvent.batchPost ts := by
  unfold processEntry
  by_cases h1 : pe.2.isSymlink = true
  · rw [if_pos h1]
    exact ⟨[], by simp, by simp⟩
  · rw [if_neg h1]
    by_cases h2 : ((properPrefixes pe.1).any fun q => ctx.ignored.contains q) = true
    · rw [if_pos h2]
      exact ⟨[], by simp, by simp⟩
    · rw [if_neg h2]
      by_cases h3 : extMatch ctx.extensions pe.2.name = true
      · rw [if_pos h3]
        exact processTrack_between ctx.batchSize ctx.batchResp pe.1 pe.2.metaOf st
      · rw [if_neg h3]
        exact ⟨[], by simp, by simp⟩

theorem walkAll_between (ctx : ScanCtx) (l : List (List String × FsEntry))
    (st : WalkState) :
    ∃ new, (walkAll ctx st l).events = st.events ++ new ∧
      ∀ ev ∈ new, ∃ ts, ev = ScanEvent.batchPost ts := by
  induction l generalizing st with
  | nil => exact ⟨[], by simp [walkAll]⟩
  | cons pe rest ih =>
    obtain ⟨n1, hn1, hb1⟩ := processEntry_between ctx pe st
    obtain ⟨n2, hn2, hb2⟩ := ih (processEntry ctx pe st)
    refine ⟨n1 ++ n2, ?_, ?_⟩
    · simp only [walkAll, List.foldl_cons] at *
      rw [hn2, hn1, List.append_assoc]
    · intro ev hev
      rcases List.mem_append.mp hev with h | h
      · exact hb1 ev h
      · exact hb2 ev h

theorem walkLoop_none (ctx : ScanCtx) (l : List (List String × FsEntry))
    (i : Nat) (st : WalkState) :
    walkLoop ctx none i st l = .done (walkAll ctx st l) := by
  induction l generalizing i st with
  | nil => rfl
  | cons pe rest ih => simp [walkLoop, killNow, walkAll, ih, List.foldl_cons]

theorem walkLoop_some (ctx : ScanCtx) (b : Nat)
    (l : List (List String × FsEntry)) (i : Nat) (st : WalkState) :
    walkLoop ctx (some (i + b)) i st l =
      if l.length ≤ b then .done (walkAll ctx st l)
      else .killed (walkAll ctx st (l.take b)) := by
  induction l generalizing b i st with
  | nil => simp [walkLoop, walkAll]
  | cons pe rest ih =>
    cases b with
    | zero =>
      have hkill : killNow (some (i + 0)) i = true := by
        simp only [killNow, decide_eq_true_eq]
        omega
      have hlen : ¬ ((pe :: rest).length ≤ 0) := by simp
      rw [if_neg hlen]
      simp only [walkLoop]
      rw [if_pos hkill]
      rfl
    | succ b' =>
      have hkill : ¬ (killNow (some (i + (b' + 1))) i = true) := by
        simp only [killNow, decide_eq_true_eq]
        omega
      simp only [walkLoop]
      rw [if_neg hkill]
      have harith : i + (b' + 1) = (i + 1) + b' := by omega
      rw [harith, ih b' (i + 1) (processEntry ctx pe st)]
      by_cases hlen : rest.length ≤ b'
      · have hlen2 : (pe :: rest).length ≤ b' + 1 := by
          simp only [List.length_cons]
          omega
        rw [if_pos hlen, if_pos hlen2]
        rfl
      · have hlen2 : ¬ ((pe :: rest).length ≤ b' + 1) := by
          simp only [List.length_cons]
          omega
        rw [if_neg hlen, if_neg hlen2]
        rfl

theorem processTrack_resp (batchSize : Nat) (f g : Nat → HttpResp)
    (p : List String) (meta : Option (List (String × String))) (st : WalkState) :
    processTrack batchSize f p meta st = processTrack batchSize g p meta st := by
  unfold processTrack processTrackBody
  cases meta with
  | none => rfl
  | some m =>
    by_cases hm : m.isEmpty
    · simp [hm]
    · by_cases hlen : batchSize ≤ st.tracks.length + 1
      · simp [hm, hlen, sendBatch_eq_ok]
      · simp [hm, hlen]

theorem processEntry_resp (exts : List String) (ign : List (List String))
    (bs : Nat) (f g : Nat → HttpResp) (pe : List String × FsEntry) (st : WalkState) :
    processEntry ⟨exts, ign, bs, f⟩ pe st = processEntry ⟨exts, ign, bs, g⟩ pe st := by
  unfold processEntry
  by_cases h1 : pe.2.isSymlink = true
  · rw [if_pos h1, if_pos h1]
  · rw [if_neg h1, if_neg h1]
    by_cases h2 : ((properPrefixes pe.1).any fun q => ign.contains q) = true
    · rw [if_pos h2, if_pos h2]
    · rw [if_neg h2, if_neg h2]
      by_cases h3 : extMatch exts pe.2.name = true
      · rw [if_pos h3, if_pos h3]
        exact processTrack_resp bs f g pe.1 pe.2.metaOf st
      · rw [if_neg h3, if_neg h3]

theorem walkLoop_resp (exts : List String) (ign : List (List String))
    (bs : Nat) (f g : Nat → HttpResp) (k : Option Nat)
    (l : List (List String × FsEntry)) (i : Nat) (st : WalkState) :
    walkLoop ⟨exts, ign, bs, f⟩ k i st l = walkLoop ⟨exts, ign, bs, g⟩ k i st l := by
  induction l generalizing i st with
  | nil => rfl
  | cons pe rest ih =>
    simp only [walkLoop]
    by_cases hk : killNow k i = true
    · rw [if_pos hk, if_pos hk]
    · rw [if_neg hk, if_neg hk, processEntry_resp exts ign bs f g pe st, ih]

theorem scan_never_errors (env : ScanEnv) :
    ∃ res, scan_music_directory env = .ok res := by
  simp only [scan_music_directory]
  split
  · exact ⟨_, rfl⟩
  · split
    · exact ⟨_, rfl⟩
    · split
      · exact ⟨_, rfl⟩
      · split
        · exact ⟨_, rfl⟩
        · split
          · exact ⟨_, rfl⟩
          · rw [sendBatch_eq_ok]
            exact ⟨_, rfl⟩

theorem scan_batchResp_irrelevant (env : ScanEnv) (f : Nat → HttpResp) :
    scan_music_directory { env with batchResp := f } = scan_music_directory env := by
  obtain ⟨h, pe, lst, rm, tr, ex, ka, br, now⟩ := env
  simp only [scan_music_directory]
  by_cases h1 : check_server_health h = false
  · rw [if_pos h1, if_pos h1]
  · rw [if_neg h1, if_neg h1]
    by_cases h2 : pe = false
    · rw [if_pos h2, if_pos h2]
    · rw [if_neg h2, if_neg h2]
      by_cases h3 : _get_latest_modification rm tr ≤ lst
      · rw [if_pos h3, if_pos h3]
      · rw [if_neg h3, if_neg h3]
        rw [walkLoop_resp ex (ignoredDirs tr) 100 f br ka (rglobStar tr) 0 ⟨[], [], 0⟩]
        cases hw : walkLoop ⟨ex, ignoredDirs tr, 100, br⟩ ka 0 ⟨[], [], 0⟩ (rglobStar tr) with
        | killed st => rfl
        | done st =>
          by_cases ht : st.tracks.isEmpty
          · simp [ht]
          · simp [ht, sendBatch_eq_ok]

theorem scan_completed_writes (env : ScanEnv)
    (hH : check_server_health env.health = true) (hE : env.pathExists = true)
    (hC : env.lastScanTime < _get_latest_modification env.rootMtime env.tree)
    (hK : env.killAt = none) :
    ∃ evs, scan_music_directory env = .ok (evs, env.now) ∧
      ScanEvent.writeState env.now ∈ evs := by
  simp only [scan_music_directory]
  rw [if_neg (by simp [hH]), if_neg (by simp [hE]), if_neg (not_le.mpr hC),
    hK, walkLoop_none]
  dsimp only
  by_cases ht : (walkAll ⟨env.extensions, ignoredDirs env.tree, 100, env.batchResp⟩
      ⟨[], [], 0⟩ (rglobStar env.tree)).tracks.isEmpty
  · rw [if_pos ht]
    exact ⟨_, rfl, by simp⟩
  · rw [if_neg ht, sendBatch_eq_ok]
    exact ⟨_, rfl, by simp⟩

/-- Generic preservation of a predicate along the folds used by the scan
loop and by `process_directory`. -/
theorem foldl_preserve {α : Type} (P : WalkState → Prop)
    (step : α → WalkState → WalkState) (l : List α)
    (hstep : ∀ x ∈ l, ∀ s, P s → P (step x s)) :
    ∀ st, P st → P (l.foldl (fun s x => step x s) st) := by
  induction l with
  | nil => exact fun st h => h
  | cons x rest ih =>
    intro st h
    exact ih (fun y hy s hs => hstep y (List.mem_cons_of_mem x hy) s hs)
      (step x st) (hstep x (List.mem_cons_self x rest) st h)

theorem walkLoop_state_preserve (ctx : ScanCtx) (k : Option Nat)
    (P : WalkState → Prop) (l : List (List String × FsEntry))
    (hstep : ∀ pe ∈ l, ∀ s, P s → P (processEntry ctx pe s)) :
    ∀ i st, P st → P (walkLoop ctx k i st l).state := by
  induction l with
  | nil => exact fun i st h => h
  | cons pe rest ih =>
    intro i st h
    simp only [walkLoop]
    by_cases hk : killNow k i = true
    · rw [if_pos hk]
      exact h
    · rw [if_neg hk]
      exact ih (fun q hq s hs => hstep q (List.mem_cons_of_mem pe hq) s hs)
        (i + 1) (processEntry ctx pe st)
        (hstep pe (List.mem_cons_self pe rest) st h)

/-- The batch-size invariant: the accumulator stays strictly below the
batch size, and every batch POSTed so far is non-empty and within it. -/
def batchInv (bs : Nat) (st : WalkState) : Prop :=
  st.tracks.length < bs ∧
  ∀ ts, ScanEvent.batchPost ts ∈ st.events → 0 < ts.length ∧ ts.length ≤ bs

theorem processTrack_batchInv (bs : Nat) (resp : Nat → HttpResp)
    (p : List String) (meta : Option (List (String × String))) (st : WalkState)
    (h : batchInv bs st) :
    batchInv bs (processTrack bs resp p meta st) := by
  unfold processTrack processTrackBody
  cases meta with
  | none => exact h
  | some m =>
    dsimp only
    by_cases hm : m.isEmpty = true
    · rw [if_pos hm]
      exact h
    · rw [if_neg hm]
      by_cases hlen : bs ≤ (st.tracks ++ [Track.mk p m]).length
      · rw [if_pos hlen, sendBatch_eq_ok]
        have hb := h.1
        refine ⟨by simp only [List.length_nil]; omega, ?_⟩
        intro ts hts
        rcases List.mem_append.mp hts with hold | hnew
        · exact h.2 ts hold
        · have hts' : ts = st.tracks ++ [Track.mk p m] := by simpa using hnew
          subst hts'
          have hl : (st.tracks ++ [Track.mk p m]).length = st.tracks.length + 1 := by
            simp
          exact ⟨by omega, by omega⟩
      · rw [if_neg hlen]
        refine ⟨?_, h.2⟩
        show (st.tracks ++ [Track.mk p m]).length < bs
        have hl : (st.tracks ++ [Track.mk p m]).length = st.tracks.length + 1 := by
          simp
        omega

theorem processEntry_batchInv (ctx : ScanCtx) (pe : List String × FsEntry)
    (st : WalkState) (h : batchInv ctx.batchSize st) :
    batchInv ctx.batchSize (processEntry ctx pe st) := by
  unfold processEntry
  by_cases h1 : pe.2.isSymlink = true
  · rw [if_pos h1]
    exact h
  · rw [if_neg h1]
    by_cases h2 : ((properPrefixes pe.1).any fun q => ctx.ignored.contains q) = true
    · rw [if_pos h2]
      exact h
    · rw [if_neg h2]
      by_cases h3 : extMatch ctx.extensions pe.2.name = true
      · rw [if_pos h3]
        exact processTrack_batchInv ctx.batchSize ctx.batchResp pe.1 pe.2.metaOf st h
      · rw [if_neg h3]
        exact h

/-- A dispatched track is accounted for: its path carries a non-symlink
regular file of the traversal, and no strict prefix of its path is in the
ignore set used by the filter. -/
def goodTrack (L : List (List String × FsEntry)) (ign : List (List String))
    (tr : Track) : Prop :=
  (∃ e, (tr.file_path, e) ∈ L ∧ e.isRegularFile = true) ∧
  ∀ q ∈ properPrefixes tr.file_path, q ∉ ign

def goodState (L : List (List String × FsEntry)) (ign : List (List String))
    (st : WalkState) : Prop :=
  (∀ tr ∈ st.tracks, goodTrack L ign tr) ∧
  ∀ ts, ScanEvent.batchPost ts ∈ st.events → ∀ tr ∈ ts, goodTrack L ign tr

theorem processTrack_good (L : List (List String × FsEntry))
    (ign : List (List String)) (bs : Nat) (resp : Nat → HttpResp)
    (p : List String) (meta : Option (List (String × String))) (st : WalkState)
    (hadd : ∀ m, meta = some m → goodTrack L ign (Track.mk p m))
    (h : goodState L ign st) :
    goodState L ign (processTrack bs resp p meta st) := by
  unfold processTrack processTrackBody
  cases meta with
  | none => exact h
  | some m =>
    dsimp only
    by_cases hm : m.isEmpty = true
    · rw [if_pos hm]
      exact h
    · rw [if_neg hm]
      have hnew : goodTrack L ign (Track.mk p m) := hadd m rfl
      by_cases hlen : bs ≤ (st.tracks ++ [Track.mk p m]).length
      · rw [if_pos hlen, sendBatch_eq_ok]
        dsimp only
        refine ⟨by simp, ?_⟩
        intro ts hts tr htr
        rcases List.mem_append.mp hts with hold | hx
        · exact h.2 ts hold tr htr
        · have hts' : ts = st.tracks ++ [Track.mk p m] := by simpa using hx
          subst hts'
          rcases List.mem_append.mp htr with ha | hb
          · exact h.1 tr ha
          · have : tr = Track.mk p m := by simpa using hb
            subst this
            exact hnew
      · rw [if_neg hlen]
        dsimp only
        refine ⟨?_, h.2⟩
        intro tr htr
        rcases List.mem_append.mp htr with ha | hb
        · exact h.1 tr ha
        · have : tr = Track.mk p m := by simpa using hb
          subst this
          exact hnew

theorem isRegularFile_of_meta (e : FsEntry) (m : List (String × String))
    (h1 : ¬ e.isSymlink = true) (h2 : e.metaOf = some m) :
    e.isRegularFile = true := by
  cases e with
  | file n sym mt se mo =>
    simp only [FsEntry.isSymlink] at h1
    simp only [FsEntry.isRegularFile]
    simp [Bool.not_eq_true] at h1
    simp [h1]
  | dir n sym cs =>
    simp [FsEntry.metaOf] at h2

theorem processEntry_good (L : List (List String × FsEntry))
    (ctx : ScanCtx) (pe : List String × FsEntry) (st : WalkState)
    (hmem : pe ∈ L) (h : goodState L ctx.ignored st) :
    goodState L ctx.ignored (processEntry ctx pe st) := by
  unfold processEntry
  by_cases h1 : pe.2.isSymlink = true
  · rw [if_pos h1]
    exact h
  · rw [if_neg h1]
    by_cases h2 : ((properPrefixes pe.1).any fun q => ctx.ignored.contains q) = true
    · rw [if_pos h2]
      exact h
    · rw [if_neg h2]
      by_cases h3 : extMatch ctx.extensions pe.2.name = true
      · rw [if_pos h3]
        refine processTrack_good L ctx.ignored ctx.batchSize ctx.batchResp
          pe.1 pe.2.metaOf st ?_ h
        intro m hm
        constructor
        · refine ⟨pe.2, ?_, isRegularFile_of_meta pe.2 m h1 hm⟩
          exact Prod.mk.eta ▸ hmem
        · intro q hq hqin
          apply h2
          rw [List.any_eq_true]
          refine ⟨q, hq, ?_⟩
          exact List.elem_iff.mpr hqin
      · rw [if_neg h3]
        exact h

theorem mem_properPrefixes_of_append (q r : List String) (hr : r ≠ []) :
    q ∈ properPrefixes (q ++ r) := by
  induction q with
  | nil =>
    cases r with
    | nil => exact absurd rfl hr
    | cons a as => simp [properPrefixes]
  | cons a as ih =>
    simp only [List.cons_append, properPrefixes, List.mem_cons, List.mem_map]
    exact Or.inr ⟨as, ih, rfl⟩

/-- Every batch POSTed by a scan is non-empty, within the hard-coded batch
size 100, and consists of accounted-for tracks (non-symlink regular files
of the traversal that passed the ignore filter). -/
theorem scan_batches_characterize (env : ScanEnv) (evs : List ScanEvent)
    (cp : Int) (h : scan_music_directory env = .ok (evs, cp)) :
    ∀ ts, ScanEvent.batchPost ts ∈ evs →
      (0 < ts.length ∧ ts.length ≤ 100) ∧
      ∀ tr ∈ ts, goodTrack (rglobStar env.tree) (ignoredDirs env.tree) tr := by
  intro ts hts
  simp only [scan_music_directory] at h
  have hwl : ∀ out, walkLoop ⟨env.extensions, ignoredDirs env.tree, 100, env.batchResp⟩
      env.killAt 0 ⟨[], [], 0⟩ (rglobStar env.tree) = out →
      goodState (rglobStar env.tree) (ignoredDirs env.tree) out.state ∧
        batchInv 100 out.state := by
    intro out hout
    have hpres := walkLoop_state_preserve
      ⟨env.extensions, ignoredDirs env.tree, 100, env.batchResp⟩ env.killAt
      (fun s => goodState (rglobStar env.tree) (ignoredDirs env.tree) s ∧ batchInv 100 s)
      (rglobStar env.tree)
      (fun pe hpe s hs =>
        ⟨processEntry_good (rglobStar env.tree) _ pe s hpe hs.1,
         processEntry_batchInv _ pe s hs.2⟩)
      0 ⟨[], [], 0⟩ ⟨⟨by simp, by simp⟩, ⟨by decide, by simp⟩⟩
    rw [hout] at hpres
    exact hpres
  split at h
  · simp only [Except.ok.injEq, Prod.mk.injEq] at h
    obtain ⟨h1, _⟩ := h
    subst h1
    simp at hts
  · split at h
    · simp only [Except.ok.injEq, Prod.mk.injEq] at h
      obtain ⟨h1, _⟩ := h
      subst h1
      simp at hts
    · split at h
      · simp only [Except.ok.injEq, Prod.mk.injEq] at h
        obtain ⟨h1, _⟩ := h
        subst h1
        simp at hts
      · split at h
        · rename_i st heq
          obtain ⟨hgs, hbi⟩ := hwl (.killed st) heq
          simp only [Except.ok.injEq, Prod.mk.injEq] at h
          obtain ⟨h1, _⟩ := h
          subst h1
          rcases List.mem_append.mp hts with h2 | h2
          · simp at h2
          · exact ⟨hbi.2 ts h2, hgs.2 ts h2⟩
        · rename_i st heq
          obtain ⟨hgs, hbi⟩ := hwl (.done st) heq
          split at h
          · rename_i hempty
            simp only [Except.ok.injEq, Prod.mk.injEq] at h
            obtain ⟨h1, _⟩ := h
            subst h1
            rcases List.mem_append.mp hts with h2 | h2
            · rcases List.mem_append.mp h2 with h3 | h3
              · simp at h3
              · exact ⟨hbi.2 ts h3, hgs.2 ts h3⟩
            · simp at h2
          · rename_i hempty
            rw [sendBatch_eq_ok] at h
            simp only [Except.ok.injEq, Prod.mk.injEq] at h
            obtain ⟨h1, _⟩ := h
            subst h1
            rcases List.mem_append.mp hts with h2 | h2
            · rcases List.mem_append.mp h2 with h3 | h3
              · simp at h3
              · exact ⟨hbi.2 ts h3, hgs.2 ts h3⟩
            · have h3 : ts = st.tracks := by
                rcases List.mem_cons.mp h2 with h4 | h4
                · exact (ScanEvent.batchPost.injEq ts st.tracks ▸ h4 :)
                · simp at h4
              subst h3
              have hne : st.tracks ≠ [] := by
                simpa [List.isEmpty_iff] using hempty
              exact ⟨⟨List.length_pos.mpr hne, Nat.le_of_lt hbi.1⟩,
                fun tr htr => hgs.1 tr htr⟩

/-- Every batch POSTed by `process_directory` is non-empty, within the
given batch size, and consists of non-symlink regular files of the
traversal. -/
theorem pd_batches_characterize (exts : List String) (bs : Nat) (de : Bool)
    (tree : List FsEntry) (resp : Nat → HttpResp) (evs : List ScanEvent)
    (hbs : 1 ≤ bs)
    (h : process_directory exts bs de tree resp = .ok evs) :
    ∀ ts, ScanEvent.batchPost ts ∈ evs →
      (0 < ts.length ∧ ts.length ≤ bs) ∧
      ∀ tr ∈ ts, goodTrack (rglobStar tree) [] tr := by
  intro ts hts
  simp only [process_directory] at h
  have hfold := foldl_preserve
    (fun s => goodState (rglobStar tree) [] s ∧ batchInv bs s)
    (fun pe s => processTrack bs resp pe.1 pe.2.metaOf s)
    ((rglobStar tree).filter fun pe => extMatch exts pe.2.name && !pe.2.isSymlink)
    (fun pe hpe s hs => by
      obtain ⟨hmem, hflt⟩ := List.mem_filter.mp hpe
      have hsym : ¬ pe.2.isSymlink = true := by
        have h2 := hflt
        simp only [Bool.and_eq_true, Bool.not_eq_true'] at h2
        simp [h2.2]
      refine ⟨processTrack_good (rglobStar tree) [] bs resp pe.1 pe.2.metaOf s ?_ hs.1,
        processTrack_batchInv bs resp pe.1 pe.2.metaOf s hs.2⟩
      intro m hm
      exact ⟨⟨pe.2, Prod.mk.eta ▸ hmem, isRegularFile_of_meta pe.2 m hsym hm⟩,
        fun q _ hq => List.not_mem_nil q hq⟩)
    ⟨[], [], 0⟩
    ⟨⟨by simp, by simp⟩, ⟨by simp only [List.length_nil]; omega, by simp⟩⟩
  split at h
  · simp only [Except.ok.injEq] at h
    subst h
    simp at hts
  · split at h
    · simp only [Except.ok.injEq] at h
      subst h
      simp at hts
    · obtain ⟨hgs, hbi⟩ := hfold
      split at h
      · rename_i hempty
        simp only [Except.ok.injEq] at h
        subst h
        exact ⟨hbi.2 ts hts, hgs.2 ts hts⟩
      · rename_i hempty
        rw [sendBatch_eq_ok] at h
        simp only [Except.ok.injEq] at h
        subst h
        rcases List.mem_append.mp hts with h2 | h2
        · exact ⟨hbi.2 ts h2, hgs.2 ts h2⟩
        · rcases List.mem_cons.mp h2 with h4 | h4
          · have h3 := ScanEvent.batchPost.inj h4
            subst h3
            simp only [List.isEmpty_iff] at hempty
            exact ⟨⟨List.length_pos.mpr hempty, Nat.le_of_lt hbi.1⟩,
              fun tr htr => hgs.1 tr htr⟩
          · exact absurd h4 (List.not_mem_nil _)

/-- There is a non-symlink regular file at this path, and every directory
on the way to it is a real (non-symlink) directory: the path is reachable
without traversing any symlink. -/
def nonSymReachable : List String → List FsEntry → Bool
  | [], _ => false
  | [x], es => es.any (fun e =>
      match e with
      | .file n sym _ _ _ => n == x && !sym
      | .dir _ _ _ => false)
  | x :: y :: rest, es => es.any (fun e =>
      match e with
      | .dir n false cs => n == x && nonSymReachable (y :: rest) cs
      | _ => false)

theorem subListing_mem (pre : List String) (es : List FsEntry)
    (p : List String) (c : FsEntry) (h : (p, c) ∈ subListing pre es) :
    ∃ e ∈ es, (p, c) ∈ entrySub pre e := by
  induction es with
  | nil => simp [subListing] at h
  | cons e rest ih =>
    rw [subListing] at h
    rcases List.mem_append.mp h with h1 | h1
    · exact ⟨e, List.mem_cons_self e rest, h1⟩
    · obtain ⟨e', he', hm⟩ := ih h1
      exact ⟨e', List.mem_cons_of_mem e he', hm⟩

theorem listing_reach_aux (n : Nat) : ∀ (es : List FsEntry), sizeOf es ≤ n →
    ∀ (pre p : List String) (c : FsEntry),
      (p, c) ∈ childPairs pre es ++ subListing pre es →
      c.isRegularFile = true →
      ∃ rel, p = pre ++ rel ∧ nonSymReachable rel es = true := by
  induction n with
  | zero =>
    intro es hsz
    exfalso
    cases es <;> simp at hsz
  | succ n ih =>
    intro es hsz pre p c hmem hreg
    rcases List.mem_append.mp hmem with h1 | h1
    · obtain ⟨e, he, heq⟩ := List.mem_map.mp h1
      obtain ⟨hp, hc⟩ := Prod.mk.injEq _ _ _ _ ▸ heq
      subst hc
      refine ⟨[e.name], hp.symm, ?_⟩
      rw [nonSymReachable]
      apply List.any_eq_true.mpr
      refine ⟨e, he, ?_⟩
      cases e with
      | file nm sym mt se mo =>
        simp only [FsEntry.isRegularFile, Bool.not_eq_true'] at hreg
        simp [FsEntry.name, hreg]
      | dir nm sym cs => simp [FsEntry.isRegularFile] at hreg
    · obtain ⟨e, he, hm⟩ := subListing_mem pre es p c h1
      cases e with
      | file nm sym mt se mo => simp [entrySub] at hm
      | dir nm sym cs =>
        cases sym with
        | true => simp [entrySub] at hm
        | false =>
          rw [entrySub] at hm
          have hszcs : sizeOf cs ≤ n := by
            have hlt := List.sizeOf_lt_of_mem he
            have hlt2 : sizeOf cs < sizeOf (FsEntry.dir nm false cs) := by
              simp [FsEntry.dir.sizeOf_spec]
            omega
          obtain ⟨rel, hrel, hreach⟩ := ih cs hszcs (pre ++ [nm]) p c hm hreg
          cases rel with
          | nil =>
            rw [nonSymReachable] at hreach
            exact absurd hreach (by simp)
          | cons y ys =>
            refine ⟨nm :: y :: ys, ?_, ?_⟩
            · rw [hrel]
              simp
            · rw [nonSymReachable]
              apply List.any_eq_true.mpr
              exact ⟨.dir nm false cs, he, by simp [hreach]⟩

/-- Every pair in the traversal whose entry is a non-symlink regular file
sits at a path that is reachable without traversing any symlink. -/
theorem listing_reach (t : List FsEntry) (p : List String) (c : FsEntry)
    (hmem : (p, c) ∈ rglobStar t) (hreg : c.isRegularFile = true) :
    nonSymReachable p t = true := by
  obtain ⟨rel, hrel, hreach⟩ :=
    listing_reach_aux (sizeOf t) t (Nat.le_refl _) [] p c hmem hreg
  rw [hrel, List.nil_append]
  exact hreach

theorem takeWhile_of_all {α : Type} (p : α → Bool) (L : List α)
    (h : L.all p = true) : L.takeWhile p = L := by
  induction L with
  | nil => rfl
  | cons a l ih =>
    rw [List.all_cons] at h
    simp only [Bool.and_eq_true] at h
    simp [List.takeWhile_cons, h.1, ih h.2]

theorem latestModLoop_takeWhile (L : List (List String × FsEntry)) (latest : Int) :
    latestModLoop latest L =
      ((L.takeWhile (fun pe => !statAborts pe.2)).filterMap
        (fun pe => okFileMtime pe.2)).foldl max latest := by
  induction L generalizing latest with
  | nil => rfl
  | cons pe rest ih =>
    by_cases ha : statAborts pe.2 = true
    · rw [latestModLoop, if_pos ha]
      have ht : (pe :: rest).takeWhile (fun pe => !statAborts pe.2) = [] := by
        simp [List.takeWhile_cons, ha]
      rw [ht]
      rfl
    · rw [latestModLoop, if_neg ha]
      have ht : (pe :: rest).takeWhile (fun pe => !statAborts pe.2) =
          pe :: rest.takeWhile (fun pe => !statAborts pe.2) := by
        simp [List.takeWhile_cons, ha]
      rw [ht]
      cases hm : okFileMtime pe.2 with
      | none =>
        simp only [List.filterMap_cons, hm, List.foldl_cons]
        exact ih latest
      | some mt =>
        simp only [List.filterMap_cons, hm, List.foldl_cons]
        exact ih (max latest mt)

/-- The file whose `stat()` fails, used by the C3 counterexample: the loop
sees `a.mp3` (mtime 5), then aborts on `bad.mp3`, never reaching `c.mp3`
(mtime 10). -/
def statErrTree : List FsEntry :=
  [ .file "a.mp3" false 5 false (some []),
    .file "bad.mp3" false 0 true (some []),
    .file "c.mp3" false 10 false (some []) ]

/-- C3 counterexample: the claim says a stat error excludes only the
failing entry and detection continues over all remaining entries, so on
`statErrTree` (root mtime 0) the result would be 10; the code's `try`
wraps the whole loop, so the error on `bad.mp3` ends the iteration and
the result is 5 — `c.mp3` is silently excluded as well. -/
theorem c3_stat_error_aborts_iteration :
    _get_latest_modification 0 statErrTree = 5 ∧
    latestModClaim 0 statErrTree = 10 ∧
    _get_latest_modification 0 statErrTree ≠ latestModClaim 0 statErrTree :=
  ⟨by decide, by decide, by decide⟩

/-- C3 amended: `_get_latest_modification` is the maximum of the root's
own modification time and the modification times of the non-symlink
regular files the traversal yields strictly before the first entry whose
`stat()` raises; that entry and every entry after it are excluded (the
function still returns normally).  When no `stat()` raises it equals the
claimed maximum over all non-symlink files. -/
theorem c3_amended_latest_modification (rootMtime : Int) (t : List FsEntry) :
    (_get_latest_modification rootMtime t =
      (((rglobStar t).takeWhile (fun pe => !statAborts pe.2)).filterMap
        (fun pe => okFileMtime pe.2)).foldl max rootMtime) ∧
    ((rglobStar t).all (fun pe => !statAborts pe.2) = true →
      _get_latest_modification rootMtime t = latestModClaim rootMtime t) := by
  constructor
  · exact latestModLoop_takeWhile (rglobStar t) rootMtime
  · intro h
    unfold _get_latest_modification latestModClaim
    rw [latestModLoop_takeWhile, takeWhile_of_all _ _ h]

theorem c3_amended_latest_modification_witness :
    ((rglobStar statErrTree).all (fun pe => !statAborts pe.2) = true →
      _get_latest_modification 0 statErrTree = latestModClaim 0 statErrTree) ∧
    _get_latest_modification 5 [] = 5 ∧
    ((rglobStar ([] : List FsEntry)).all (fun pe => !statAborts pe.2) = true) ∧
    _get_latest_modification 5 [] = latestModClaim 5 [] :=
  ⟨(c3_amended_latest_modification 0 statErrTree).2, by decide, by decide,
    (c3_amended_latest_modification 5 []).2 (by decide)⟩

/-- C8 counterexample: the claim says matching is case-insensitive
regardless of the case in the configured set; with the set containing
`.MP3`, the file `a.mp3` is case-insensitively a member but the code
rejects it, because only the file's suffix is lowercased. -/
theorem c8_extension_case_mismatch :
    extMatch [".MP3"] "a.mp3" = false ∧
    extMatchClaim [".MP3"] "a.mp3" = true :=
  ⟨by decide, by decide⟩

/-- C8 amended: the filter accepts a file exactly when its lowercased
suffix is verbatim a member of the configured set — case-insensitive in
the file's extension only.  When every configured extension is already
lowercase this coincides with the claimed case-insensitive membership;
a configured extension containing an uppercase letter never matches. -/
theorem c8_amended_extension_filter :
    (∀ (exts : List String) (name : String),
      extMatch exts name = true ↔ strLower (pySuffix name) ∈ exts) ∧
    (∀ (exts : List String) (name : String),
      (∀ ext ∈ exts, strLower ext = ext) →
      (extMatch exts name = true ↔ extMatchClaim exts name = true)) := by
  constructor
  · intro exts name
    unfold extMatch
    exact List.elem_iff
  · intro exts name hlow
    unfold extMatch extMatchClaim
    constructor
    · intro h
      have hmem : strLower (pySuffix name) ∈ exts := List.elem_iff.mp h
      apply List.any_eq_true.mpr
      refine ⟨strLower (pySuffix name), hmem, ?_⟩
      simp [hlow _ hmem]
    · intro h
      obtain ⟨ext, hext, heq⟩ := List.any_eq_true.mp h
      have heq' : strLower ext = strLower (pySuffix name) := by
        simpa using heq
      have : ext = strLower (pySuffix name) := by
        rw [← heq']
        exact (hlow ext hext).symm
      exact List.elem_iff.mpr (this ▸ hext)

theorem c8_amended_extension_filter_witness :
    (extMatch [".mp3"] "A.MP3" = true ↔ strLower (pySuffix "A.MP3") ∈ [".mp3"]) ∧
    (∀ ext ∈ [".mp3"], strLower ext = ext) ∧
    (extMatch [".mp3"] "A.MP3" = true ↔ extMatchClaim [".mp3"] "A.MP3" = true) :=
  ⟨c8_amended_extension_filter.1 [".mp3"] "A.MP3", by decide,
    c8_amended_extension_filter.2 [".mp3"] "A.MP3" (by decide)⟩

/-- A healthy health-check response. -/
def okHealth : HttpResp := .resp 200 (some [("status", "Server is running")])

/-- A successful batch-POST response. -/
def okBatchResp : Nat → HttpResp := fun _ => .resp 200 (some [("message", "ok")])

/-- A small tree exercising every filter: a good file, a file with empty
metadata, a symlinked file, an ignored subdirectory with a good file
inside, and a symlinked directory with a good file inside. -/
def demoTree : List FsEntry :=
  [ .file "a.mp3" false 5 false (some [("title", "A")]),
    .file "b.mp3" false 6 false (some []),
    .file "link.mp3" true 7 false (some [("title", "L")]),
    .dir "sub" false
      [ .file ".ignore" false 1 false (some []),
        .file "c.mp3" false 7 false (some [("title", "C")]) ],
    .dir "slink" true [ .file "d.mp3" false 8 false (some [("title", "D")]) ] ]

def demoEnv : ScanEnv :=
  { health := okHealth, pathExists := true, lastScanTime := 0, rootMtime := 1,
    tree := demoTree, extensions := [".mp3"], killAt := none,
    batchResp := okBatchResp, now := 42 }

/-- The event trace of a full scan of `demoEnv`: only `a.mp3` is
dispatched, in one batch, and the checkpoint is written. -/
def demoEvs : List ScanEvent :=
  [ .healthGet, .readState, .statTree,
    .batchPost [Track.mk ["a.mp3"] [("title", "A")]], .writeState 42 ]

theorem scan_demoEnv : scan_music_directory demoEnv = .ok (demoEvs, 42) := rfl

/-- `demoEnv` with nothing modified since the last scan. -/
def noChangeEnv : ScanEnv := { demoEnv with lastScanTime := 10 }

/-- C1 counterexample: on a scan invocation where the latest modification
time (7) is at most the last scan time (10), the code still performs the
health-check HTTP GET before the change check, so it is false that no
HTTP call of any kind is made. -/
theorem c1_health_call_despite_no_change :
    _get_latest_modification noChangeEnv.rootMtime noChangeEnv.tree ≤
      noChangeEnv.lastScanTime ∧
    ∃ evs cp, scan_music_directory noChangeEnv = .ok (evs, cp) ∧
      ScanEvent.healthGet ∈ evs :=
  ⟨by decide, [.healthGet, .readState, .statTree], 10, rfl, by decide⟩

/-- C1 amended: when `latest_modification_time(root) <= last_scan_time`,
no single-track or batch POST is made and the persisted checkpoint is
unchanged; the health-check GET, however, is still made, because it
precedes the change check. -/
theorem c1_amended_no_posts_when_unchanged (env : ScanEnv)
    (h : _get_latest_modification env.rootMtime env.tree ≤ env.lastScanTime) :
    ∃ evs, scan_music_directory env = .ok (evs, env.lastScanTime) ∧
      ScanEvent.healthGet ∈ evs ∧
      (∀ ts, ScanEvent.batchPost ts ∉ evs) ∧
      (∀ tr, ScanEvent.singlePost tr ∉ evs) ∧
      (∀ t, ScanEvent.writeState t ∉ evs) := by
  simp only [scan_music_directory]
  split
  · exact ⟨[.healthGet], rfl, by simp, by simp, by simp, by simp⟩
  · split
    · exact ⟨[.healthGet], rfl, by simp, by simp, by simp, by simp⟩
    · exact ⟨[.healthGet, .readState, .statTree], rfl, by simp, by simp,
        by simp, by simp⟩

theorem c1_amended_no_posts_when_unchanged_witness :
    ∃ evs, scan_music_directory noChangeEnv = .ok (evs, noChangeEnv.lastScanTime) ∧
      ScanEvent.healthGet ∈ evs ∧
      (∀ ts, ScanEvent.batchPost ts ∉ evs) ∧
      (∀ tr, ScanEvent.singlePost tr ∉ evs) ∧
      (∀ t, ScanEvent.writeState t ∉ evs) :=
  c1_amended_no_posts_when_unchanged noChangeEnv (by decide)

/-- `demoEnv` with every batch POST failing at the network level. -/
def failBatchEnv : ScanEnv := { demoEnv with batchResp := fun _ => .exn }

/-- C2: `_send_batch` returns normally for every response (success,
non-2xx, network failure); the scan never lets an exception escape; the
scan's observable behaviour and final checkpoint do not depend on the
batch-POST responses at all (so a failed delivery aborts nothing); and a
scan whose walk completes writes the checkpoint regardless of those
responses. -/
theorem c2_batch_and_file_errors_contained :
    (∀ r : HttpResp, sendBatch r = .ok ()) ∧
    (∀ env : ScanEnv, ∃ res, scan_music_directory env = .ok res) ∧
    (∀ (env : ScanEnv) (f : Nat → HttpResp),
      scan_music_directory { env with batchResp := f } =
        scan_music_directory env) ∧
    (∀ env : ScanEnv, check_server_health env.health = true →
      env.pathExists = true →
      env.lastScanTime < _get_latest_modification env.rootMtime env.tree →
      env.killAt = none →
      ∃ evs, scan_music_directory env = .ok (evs, env.now) ∧
        ScanEvent.writeState env.now ∈ evs) :=
  ⟨sendBatch_eq_ok, scan_never_errors,
    fun env f => scan_batchResp_irrelevant env f, scan_completed_writes⟩

theorem c2_batch_and_file_errors_contained_witness :
    sendBatch HttpResp.exn = .ok () ∧
    (∃ res, scan_music_directory failBatchEnv = .ok res) ∧
    scan_music_directory { demoEnv with batchResp := fun _ => HttpResp.exn } =
      scan_music_directory demoEnv ∧
    (∃ evs, scan_music_directory failBatchEnv = .ok (evs, failBatchEnv.now) ∧
      ScanEvent.writeState failBatchEnv.now ∈ evs) :=
  ⟨c2_batch_and_file_errors_contained.1 .exn,
   c2_batch_and_file_errors_contained.2.1 failBatchEnv,
   c2_batch_and_file_errors_contained.2.2.1 demoEnv (fun _ => .exn),
   c2_batch_and_file_errors_contained.2.2.2 failBatchEnv rfl rfl (by decide) rfl⟩

/-- On every response the narrow model can express, the refined
`check_server_health` returns normally, with exactly the narrow model's
verdict: the scan embedding's health model is the restriction of the
refined one to representable bodies. -/
theorem check_server_health_full_agrees (r : HttpResp) :
    check_server_health_full r.toFull = .ok (check_server_health r) := by
  cases r with
  | exn => rfl
  | resp status body =>
    cases body with
    | none =>
      by_cases hs : status = 200
      · subst hs
        rfl
      · simp [HttpResp.toFull, check_server_health_full,
          checkServerHealthFullBody, check_server_health,
          checkServerHealthBody, hs]
    | some data =>
      by_cases hs : status = 200
      · subst hs
        by_cases hl : data.lookup "status" = some "Server is running"
        · simp [HttpResp.toFull, check_server_health_full,
            checkServerHealthFullBody, check_server_health,
            checkServerHealthBody, hl]
        · simp [HttpResp.toFull, check_server_health_full,
            checkServerHealthFullBody, check_server_health,
            checkServerHealthBody, hl]
      · simp [HttpResp.toFull, check_server_health_full,
          checkServerHealthFullBody, check_server_health,
          checkServerHealthBody, hs]

/-- C9 counterexample: on HTTP 200 with a body that decodes to JSON that
is not an object (for instance `[]`), `data.get("status")` raises
`AttributeError`; `except requests.exceptions.RequestException` does not
catch it, so `check_server_health` raises instead of returning false —
refuting the claim that any unexpected body yields `false` without
raising. -/
theorem c9_nonobject_body_raises :
    check_server_health_full (.resp 200 .nonObj) = .error "AttributeError" ∧
    ∀ b : Bool, check_server_health_full (.resp 200 .nonObj) ≠ .ok b :=
  ⟨rfl, fun b h => by
    simp [check_server_health_full, checkServerHealthFullBody] at h⟩

/-- C9 amended: `check_server_health` returns true iff the GET yields
HTTP 200 with a JSON *object* body whose `status` field is the running
marker; on a network failure, timeout, non-200 status, undecodable body,
or object body without that field it returns false without raising; on an
HTTP 200 response whose body decodes to non-object JSON it instead raises
`AttributeError`, which its `RequestException` handler does not catch;
and an unhealthy (false) result makes the scan return right after the
health GET with no POST of either kind and the checkpoint unchanged. -/
theorem c9_amended_health_check :
    (∀ r : HttpRespFull, check_server_health_full r = .ok true ↔
      ∃ body, r = .resp 200 (.obj body) ∧
        body.lookup "status" = some "Server is running") ∧
    (∀ r : HttpRespFull, r ≠ .resp 200 .nonObj →
      ∃ b : Bool, check_server_health_full r = .ok b) ∧
    check_server_health_full (.resp 200 .nonObj) = .error "AttributeError" ∧
    (∀ env : ScanEnv, check_server_health env.health = false →
      scan_music_directory env = .ok ([.healthGet], env.lastScanTime)) := by
  refine ⟨?_, ?_, rfl, ?_⟩
  · intro r
    constructor
    · intro h
      cases r with
      | exn => simp [check_server_health_full, checkServerHealthFullBody] at h
      | resp status body =>
        by_cases hs : status = 200
        · subst hs
          cases body with
          | undecodable =>
            simp [check_server_health_full, checkServerHealthFullBody] at h
          | nonObj =>
            simp [check_server_health_full, checkServerHealthFullBody] at h
          | obj data =>
            by_cases hl : data.lookup "status" = some "Server is running"
            · exact ⟨data, rfl, hl⟩
            · simp [check_server_health_full, checkServerHealthFullBody, hl] at h
        · simp [check_server_health_full, checkServerHealthFullBody, hs] at h
    · rintro ⟨body, rfl, hl⟩
      simp [check_server_health_full, checkServerHealthFullBody, hl]
  · intro r hr
    cases r with
    | exn => exact ⟨false, rfl⟩
    | resp status body =>
      by_cases hs : status = 200
      · subst hs
        cases body with
        | undecodable => exact ⟨false, rfl⟩
        | nonObj => exact absurd rfl hr
        | obj data =>
          by_cases hl : data.lookup "status" = some "Server is running"
          · exact ⟨true, by
              simp [check_server_health_full, checkServerHealthFullBody, hl]⟩
          · exact ⟨false, by
              simp [check_server_health_full, checkServerHealthFullBody, hl]⟩
      · exact ⟨false, by
          simp [check_server_health_full, checkServerHealthFullBody, hs]⟩
  · intro env h
    simp only [scan_music_directory]
    rw [if_pos h]

/-- `demoEnv` against a server answering 503 to the health check. -/
def unhealthyEnv : ScanEnv := { demoEnv with health := .resp 503 none }

theorem c9_amended_health_check_witness :
    (check_server_health_full
        (.resp 200 (.obj [("status", "Server is running")])) = .ok true ↔
      ∃ body, HttpRespFull.resp 200 (.obj [("status", "Server is running")]) =
          .resp 200 (.obj body) ∧
        body.lookup "status" = some "Server is running") ∧
    (∃ b : Bool, check_server_health_full (.resp 503 .nonObj) = .ok b) ∧
    scan_music_directory unhealthyEnv = .ok ([.healthGet], unhealthyEnv.lastScanTime) :=
  ⟨c9_amended_health_check.1 (.resp 200 (.obj [("status", "Server is running")])),
   c9_amended_health_check.2.1 (.resp 503 .nonObj) (by decide),
   c9_amended_health_check.2.2.2 unhealthyEnv (by decide)⟩

/-- C10: when the configured music root does not exist, the scan returns
right after the health check: the trace is just the health GET — no
checkpoint read, no change-detection walk, no POST of either kind, no
checkpoint write — and the persisted checkpoint is unchanged. -/
theorem c10_missing_root_skips_scan (env : ScanEnv)
    (hH : check_server_health env.health = true) (hE : env.pathExists = false) :
    scan_music_directory env = .ok ([.healthGet], env.lastScanTime) := by
  simp only [scan_music_directory]
  rw [if_neg (by simp [hH]), if_pos hE]

/-- `demoEnv` with a missing music root. -/
def noRootEnv : ScanEnv := { demoEnv with pathExists := false }

theorem c10_missing_root_skips_scan_witness :
    scan_music_directory noRootEnv = .ok ([.healthGet], noRootEnv.lastScanTime) :=
  c10_missing_root_skips_scan noRootEnv rfl rfl

/-- C5: if the cancellation signal arrives before the walk has handled
the whole traversal (it is raised at loop check `k`, with more entries
remaining), the scan stops at that check: the trace is exactly the trace
of the first `k` loop iterations — nothing further is sent, the
accumulated partial batch included — no checkpoint write occurs, and the
persisted checkpoint value is unchanged. -/
theorem c5_cancellation_stops_walk_and_checkpoint (env : ScanEnv) (k : Nat)
    (hH : check_server_health env.health = true) (hE : env.pathExists = true)
    (hC : env.lastScanTime < _get_latest_modification env.rootMtime env.tree)
    (hK : env.killAt = some k) (hk : k < (rglobStar env.tree).length) :
    scan_music_directory env =
      .ok ([.healthGet, .readState, .statTree] ++
        (walkAll ⟨env.extensions, ignoredDirs env.tree, 100, env.batchResp⟩
          ⟨[], [], 0⟩ ((rglobStar env.tree).take k)).events, env.lastScanTime) ∧
    ∀ t, ScanEvent.writeState t ∉
      [ScanEvent.healthGet, ScanEvent.readState, ScanEvent.statTree] ++
        (walkAll ⟨env.extensions, ignoredDirs env.tree, 100, env.batchResp⟩
          ⟨[], [], 0⟩ ((rglobStar env.tree).take k)).events := by
  constructor
  · simp only [scan_music_directory]
    rw [if_neg (by simp [hH]), if_neg (by simp [hE]), if_neg (not_le.mpr hC), hK]
    have hws := walkLoop_some
      ⟨env.extensions, ignoredDirs env.tree, 100, env.batchResp⟩
      k (rglobStar env.tree) 0 ⟨[], [], 0⟩
    rw [Nat.zero_add] at hws
    rw [hws, if_neg (by omega)]
  · intro t ht
    rcases List.mem_append.mp ht with h1 | h1
    · simp at h1
    · obtain ⟨new, hnew, hb⟩ := walkAll_between
        ⟨env.extensions, ignoredDirs env.tree, 100, env.batchResp⟩
        ((rglobStar env.tree).take k) ⟨[], [], 0⟩
      rw [hnew] at h1
      simp only [List.nil_append] at h1
      obtain ⟨ts, hts⟩ := hb _ h1
      exact absurd hts (by simp)

/-- `demoEnv` cancelled at the second loop check: `a.mp3` has been
processed into the (still unsent) accumulator when the signal is seen. -/
def killEnv : ScanEnv := { demoEnv with killAt := some 1 }

theorem c5_cancellation_stops_walk_and_checkpoint_witness :
    scan_music_directory killEnv =
      .ok ([.healthGet, .readState, .statTree] ++
        (walkAll ⟨killEnv.extensions, ignoredDirs killEnv.tree, 100, killEnv.batchResp⟩
          ⟨[], [], 0⟩ ((rglobStar killEnv.tree).take 1)).events, killEnv.lastScanTime) ∧
    ∀ t, ScanEvent.writeState t ∉
      [ScanEvent.healthGet, ScanEvent.readState, ScanEvent.statTree] ++
        (walkAll ⟨killEnv.extensions, ignoredDirs killEnv.tree, 100, killEnv.batchResp⟩
          ⟨[], [], 0⟩ ((rglobStar killEnv.tree).take 1)).events :=
  c5_cancellation_stops_walk_and_checkpoint killEnv 1 rfl rfl (by decide) rfl
    (by decide)

/-- The three-file tree of the C6 scenario. -/
def threeTree : List FsEntry :=
  [ .file "a.mp3" false 1 false (some [("title", "1")]),
    .file "b.mp3" false 2 false (some [("title", "2")]),
    .file "c.mp3" false 3 false (some [("title", "3")]) ]

/-- C6: every batch a scan dispatches is non-empty and of size at most
100 (the batch size in effect in `scan_music_directory`); every batch
`process_directory` dispatches is non-empty and of size at most its
`batch_size` parameter (default 100); and in the concrete scenario with
batch size 2 and three eligible records, exactly two dispatches occur, of
sizes 2 then 1, in that order. -/
theorem c6_batch_size_bounds :
    (∀ (env : ScanEnv) (evs : List ScanEvent) (cp : Int),
      scan_music_directory env = .ok (evs, cp) →
      ∀ ts, ScanEvent.batchPost ts ∈ evs → 0 < ts.length ∧ ts.length ≤ 100) ∧
    (∀ (exts : List String) (bs : Nat) (de : Bool) (tree : List FsEntry)
        (resp : Nat → HttpResp) (evs : List ScanEvent), 1 ≤ bs →
      process_directory exts bs de tree resp = .ok evs →
      ∀ ts, ScanEvent.batchPost ts ∈ evs → 0 < ts.length ∧ ts.length ≤ bs) ∧
    process_directory [".mp3"] 2 true threeTree okBatchResp =
      .ok [.batchPost [Track.mk ["a.mp3"] [("title", "1")],
                       Track.mk ["b.mp3"] [("title", "2")]],
           .batchPost [Track.mk ["c.mp3"] [("title", "3")]]] :=
  ⟨fun env evs cp h ts hts => (scan_batches_characterize env evs cp h ts hts).1,
   fun exts bs de tree resp evs hbs h ts hts =>
     (pd_batches_characterize exts bs de tree resp evs hbs h ts hts).1,
   rfl⟩

theorem c6_batch_size_bounds_witness :
    (0 < [Track.mk ["a.mp3"] [("title", "A")]].length ∧
      [Track.mk ["a.mp3"] [("title", "A")]].length ≤ 100) ∧
    (0 < [Track.mk ["a.mp3"] [("title", "1")],
          Track.mk ["b.mp3"] [("title", "2")]].length ∧
      [Track.mk ["a.mp3"] [("title", "1")],
       Track.mk ["b.mp3"] [("title", "2")]].length ≤ 2) :=
  ⟨c6_batch_size_bounds.1 demoEnv demoEvs 42 rfl
      [Track.mk ["a.mp3"] [("title", "A")]] (by decide),
   c6_batch_size_bounds.2.1 [".mp3"] 2 true threeTree okBatchResp
      [.batchPost [Track.mk ["a.mp3"] [("title", "1")],
                   Track.mk ["b.mp3"] [("title", "2")]],
       .batchPost [Track.mk ["c.mp3"] [("title", "3")]]]
      (by decide) rfl
      [Track.mk ["a.mp3"] [("title", "1")], Track.mk ["b.mp3"] [("title", "2")]]
      (by decide)⟩

/-- C4: during a scan, a track from a file whose path has an ignored
directory as itself or as any ancestor is never part of a dispatched
batch.  The `hdirs` hypothesis records the file-system fact that every
path in the Ignore Set is borne by a directory of the tree (two sibling
entries never share a name on a real file system).  The Ignore Set used
is `ignoredDirs env.tree`, computed in a first pass over the whole tree
before the walk begins, so the exclusion holds even for files the walk
yields before the marker file. -/
theorem c4_ignored_dirs_never_dispatched (env : ScanEnv)
    (hdirs : ∀ q ∈ ignoredDirs env.tree, ∀ pe ∈ rglobStar env.tree,
      pe.1 = q → pe.2.isDir = true)
    (evs : List ScanEvent) (cp : Int)
    (h : scan_music_directory env = .ok (evs, cp))
    (ts : List Track) (hts : ScanEvent.batchPost ts ∈ evs)
    (tr : Track) (htr : tr ∈ ts)
    (q : List String) (hq : q ∈ ignoredDirs env.tree) :
    ¬ ∃ rest, q ++ rest = tr.file_path := by
  obtain ⟨⟨e, heL, hef⟩, hpref⟩ :=
    (scan_batches_characterize env evs cp h ts hts).2 tr htr
  rintro ⟨rest, hrest⟩
  cases rest with
  | nil =>
    rw [List.append_nil] at hrest
    subst hrest
    have hd := hdirs _ hq (tr.file_path, e) heL rfl
    cases e with
    | file n sym mt se mo => simp [FsEntry.isDir] at hd
    | dir n sym cs => simp [FsEntry.isRegularFile] at hef
  | cons r rs =>
    have hmem : q ∈ properPrefixes tr.file_path := by
      rw [← hrest]
      exact mem_properPrefixes_of_append q (r :: rs) (by simp)
    exact hpref q hmem hq

theorem c4_ignored_dirs_never_dispatched_witness :
    ¬ ∃ rest, ["sub"] ++ rest = (Track.mk ["a.mp3"] [("title", "A")]).file_path :=
  c4_ignored_dirs_never_dispatched demoEnv (by decide) demoEvs 42 rfl
    [Track.mk ["a.mp3"] [("title", "A")]] (by decide)
    (Track.mk ["a.mp3"] [("title", "A")]) (by decide)
    ["sub"] (by decide)

/-- Like `pd_batches_characterize` but without the batch-size invariant,
so it needs no lower bound on the batch size. -/
theorem pd_tracks_good (exts : List String) (bs : Nat) (de : Bool)
    (tree : List FsEntry) (resp : Nat → HttpResp) (evs : List ScanEvent)
    (h : process_directory exts bs de tree resp = .ok evs) :
    ∀ ts, ScanEvent.batchPost ts ∈ evs →
      ∀ tr ∈ ts, goodTrack (rglobStar tree) [] tr := by
  intro ts hts
  simp only [process_directory] at h
  have hfold := foldl_preserve (goodState (rglobStar tree) [])
    (fun pe s => processTrack bs resp pe.1 pe.2.metaOf s)
    ((rglobStar tree).filter fun pe => extMatch exts pe.2.name && !pe.2.isSymlink)
    (fun pe hpe s hs => by
      obtain ⟨hmem, hflt⟩ := List.mem_filter.mp hpe
      have hsym : ¬ pe.2.isSymlink = true := by
        have h2 := hflt
        simp only [Bool.and_eq_true, Bool.not_eq_true'] at h2
        simp [h2.2]
      refine processTrack_good (rglobStar tree) [] bs resp pe.1 pe.2.metaOf s ?_ hs
      intro m hm
      exact ⟨⟨pe.2, Prod.mk.eta ▸ hmem, isRegularFile_of_meta pe.2 m hsym hm⟩,
        fun q _ hq => List.not_mem_nil q hq⟩)
    ⟨[], [], 0⟩ ⟨by simp, by simp⟩
  split at h
  · simp only [Except.ok.injEq] at h
    subst h
    simp at hts
  · split at h
    · simp only [Except.ok.injEq] at h
      subst h
      simp at hts
    · split at h
      · simp only [Except.ok.injEq] at h
        subst h
        exact hfold.2 ts hts
      · rename_i hempty
        rw [sendBatch_eq_ok] at h
        simp only [Except.ok.injEq] at h
        subst h
        rcases List.mem_append.mp hts with h2 | h2
        · exact hfold.2 ts h2
        · rcases List.mem_cons.mp h2 with h4 | h4
          · have h3 := ScanEvent.batchPost.inj h4
            subst h3
            exact fun tr htr => hfold.1 tr htr
          · exact absurd h4 (List.not_mem_nil _)

/-- C7: no symlinked file, and no file reachable only through a symlinked
directory, ever appears in a dispatched batch — every dispatched track's
path leads to a non-symlink regular file through non-symlink directories
only, both for the scan and for `process_directory`. -/
theorem c7_symlinks_never_dispatched :
    (∀ (env : ScanEnv) (evs : List ScanEvent) (cp : Int),
      scan_music_directory env = .ok (evs, cp) →
      ∀ ts, ScanEvent.batchPost ts ∈ evs → ∀ tr ∈ ts,
        nonSymReachable tr.file_path env.tree = true) ∧
    (∀ (exts : List String) (bs : Nat) (de : Bool) (tree : List FsEntry)
        (resp : Nat → HttpResp) (evs : List ScanEvent),
      process_directory exts bs de tree resp = .ok evs →
      ∀ ts, ScanEvent.batchPost ts ∈ evs → ∀ tr ∈ ts,
        nonSymReachable tr.file_path tree = true) := by
  constructor
  · intro env evs cp h ts hts tr htr
    obtain ⟨⟨e, heL, hef⟩, _⟩ :=
      (scan_batches_characterize env evs cp h ts hts).2 tr htr
    exact listing_reach env.tree tr.file_path e heL hef
  · intro exts bs de tree resp evs h ts hts tr htr
    obtain ⟨⟨e, heL, hef⟩, _⟩ := pd_tracks_good exts bs de tree resp evs h ts hts tr htr
    exact listing_reach tree tr.file_path e heL hef

theorem c7_symlinks_never_dispatched_witness :
    nonSymReachable (Track.mk ["a.mp3"] [("title", "A")]).file_path demoTree = true ∧
    nonSymReachable (Track.mk ["c.mp3"] [("title", "3")]).file_path threeTree = true :=
  ⟨c7_symlinks_never_dispatched.1 demoEnv demoEvs 42 rfl
      [Track.mk ["a.mp3"] [("title", "A")]] (by decide)
      (Track.mk ["a.mp3"] [("title", "A")]) (by decide),
   c7_symlinks_never_dispatched.2 [".mp3"] 2 true threeTree okBatchResp
      [.batchPost [Track.mk ["a.mp3"] [("title", "1")],
                   Track.mk ["b.mp3"] [("title", "2")]],
       .batchPost [Track.mk ["c.mp3"] [("title", "3")]]] rfl
      [Track.mk ["c.mp3"] [("title", "3")]] (by decide)
      (Track.mk ["c.mp3"] [("title", "3")]) (by decide)⟩

example : pySuffix "a.mp3" = ".mp3" := by decide
example : pySuffix ".ignore" = "" := by decide
example : pySuffix "foo." = "" := by decide
example : pySuffix "a.b.flac" = ".flac" := by decide
example : extMatch [".mp3"] "A.MP3" = true := by decide
example : extMatch [".MP3"] "a.mp3" = false := by decide
